import Mathlib

/-!
# Verification of the Story Hub migration runner and data-access layer

Shallow embedding of the schema-migration subsystem
(`migrations/migration.py`), the post / analytics data-access methods
(`models.py`) and the contact route (`routes/main.py`), with theorems
checking the specified behaviours against the embedded code.
-/

namespace Sorting

/-- Insert `a` into `l`, placing it before the first element `b` with
`le a b = true` (insertion step of a stable ascending insertion sort,
modelling Python's `sorted` and SQL `ORDER BY`). -/
def insertBy {α : Type} (le : α → α → Bool) (a : α) : List α → List α
  | [] => [a]
  | b :: l => if le a b then a :: b :: l else b :: insertBy le a l

/-- Insertion sort with comparator `le`. -/
def sortBy {α : Type} (le : α → α → Bool) : List α → List α
  | [] => []
  | a :: l => insertBy le a (sortBy le l)

theorem mem_insertBy {α : Type} (le : α → α → Bool) (a x : α) :
    ∀ l : List α, x ∈ insertBy le a l ↔ x = a ∨ x ∈ l := by
  intro l
  induction l with
  | nil => simp [insertBy]
  | cons b l ih =>
    by_cases h : le a b = true
    · simp [insertBy, h]
    · simp only [insertBy, if_neg h, List.mem_cons, ih]
      tauto

theorem mem_sortBy {α : Type} (le : α → α → Bool) (x : α) :
    ∀ l : List α, x ∈ sortBy le l ↔ x ∈ l := by
  intro l
  induction l with
  | nil => simp [sortBy]
  | cons a l ih => simp [sortBy, mem_insertBy, ih]

theorem pairwise_insertBy {α : Type} (le : α → α → Bool)
    (htot : ∀ a b, le a b = false → le b a = true)
    (htrans : ∀ a b c, le a b = true → le b c = true → le a c = true)
    (a : α) :
    ∀ l : List α, l.Pairwise (fun x y => le x y = true) →
      (insertBy le a l).Pairwise (fun x y => le x y = true) := by
  intro l
  induction l with
  | nil => intro _; simp [insertBy]
  | cons b l ih =>
    intro hp
    rw [List.pairwise_cons] at hp
    by_cases h : le a b = true
    · rw [insertBy, if_pos h, List.pairwise_cons]
      refine ⟨?_, List.pairwise_cons.2 hp⟩
      intro x hx
      rcases List.mem_cons.1 hx with rfl | hx
      · exact h
      · exact htrans _ _ _ h (hp.1 x hx)
    · rw [insertBy, if_neg h, List.pairwise_cons]
      refine ⟨?_, ih hp.2⟩
      intro x hx
      rcases (mem_insertBy le a x l).1 hx with rfl | hx
      · exact htot _ _ (by simpa using h)
      · exact hp.1 x hx

theorem pairwise_sortBy {α : Type} (le : α → α → Bool)
    (htot : ∀ a b, le a b = false → le b a = true)
    (htrans : ∀ a b c, le a b = true → le b c = true → le a c = true) :
    ∀ l : List α, (sortBy le l).Pairwise (fun x y => le x y = true) := by
  intro l
  induction l with
  | nil => simp [sortBy]
  | cons a l ih => exact pairwise_insertBy le htot htrans a _ ih

theorem length_insertBy {α : Type} (le : α → α → Bool) (a : α) :
    ∀ l : List α, (insertBy le a l).length = l.length + 1 := by
  intro l
  induction l with
  | nil => rfl
  | cons b l ih =>
    by_cases h : le a b = true
    · simp [insertBy, h]
    · simp [insertBy, h, ih]

theorem length_sortBy {α : Type} (le : α → α → Bool) :
    ∀ l : List α, (sortBy le l).length = l.length := by
  intro l
  induction l with
  | nil => rfl
  | cons a l ih => simp [sortBy, length_insertBy, ih]

end Sorting

namespace Migrations

/-- Version extraction from a migration filename:
`filename.split('_')[0]` (e.g. `"001_initial_schema.py"` gives `"001"`). -/
def versionOf (filename : String) : String :=
  (filename.splitOn "_").headD ""

/-- The filter applied by `_discover_migrations` to directory entries:
ends with `.py`, is not `__init__.py` or `migration.py`, and contains `'_'`. -/
def isMigrationFile (filename : String) : Bool :=
  filename.endsWith ".py" && filename != "__init__.py" && filename != "migration.py"
    && filename.data.contains '_'

/-- `MigrationManager._discover_migrations`: scan the directory listing and
return `(version, filename)` pairs for each migration file. -/
def _discover_migrations (files : List String) : List (String × String) :=
  files.filterMap fun f => if isMigrationFile f then some (versionOf f, f) else none

/-- `MigrationManager._get_applied_versions`: the set of `version` values
of the `schema_migrations` ledger rows (rows are `(version, name)` here). -/
def _get_applied_versions (ledger : List (String × String)) : List String :=
  (ledger.map Prod.fst).dedup

/-- Python's ascending lexicographic order on `(version, filename)` tuples,
as used by `sorted(pending)`. -/
def pairLe (a b : String × String) : Bool :=
  decide (a.1 < b.1) || (a.1 == b.1 && decide (a.2 ≤ b.2))

/-- `MigrationManager.get_pending_migrations`: discovered migrations whose
version is not in the applied set, sorted ascending. -/
def get_pending_migrations (files : List String) (ledger : List (String × String)) :
    List (String × String) :=
  Sorting.sortBy pairLe ((_discover_migrations files).filter
    (fun vf => !(_get_applied_versions ledger).contains vf.1))

theorem mem_get_pending (files : List String) (ledger : List (String × String))
    (vf : String × String) :
    vf ∈ get_pending_migrations files ledger ↔
      vf ∈ _discover_migrations files ∧ vf.1 ∉ _get_applied_versions ledger := by
  rw [get_pending_migrations, Sorting.mem_sortBy, List.mem_filter]
  simp

end Migrations

/-- C2, counterexample: with an empty migrations directory and a ledger
containing version "001" (its file was deleted), the union of the pending
versions and the applied versions is {"001"}, which is not the (empty) set
of discovered versions; so the claimed union equation fails as stated. -/
theorem get_pending_union_ne_discovered :
    ¬ (∀ v : String,
        ((∃ f, (v, f) ∈ Migrations.get_pending_migrations []
            [("001", "InitialSchemaMigration")]) ∨
          v ∈ Migrations._get_applied_versions [("001", "InitialSchemaMigration")])
        ↔ (∃ f, (v, f) ∈ Migrations._discover_migrations [])) := by
  intro h
  have h001 := (h "001").1
  simp [Migrations._discover_migrations, Migrations._get_applied_versions] at h001

/-- C2 (amended): for every directory listing and ledger state, the pending
list and the applied version set are disjoint, their union (at the level of
versions) equals the union of the discovered versions with the applied
versions, and it equals the discovered versions exactly under the extra
assumption that every applied version is still discovered. -/
theorem pending_applied_partition (files : List String) (ledger : List (String × String)) :
    (∀ vf ∈ Migrations.get_pending_migrations files ledger,
        vf.1 ∉ Migrations._get_applied_versions ledger)
    ∧ (∀ v : String,
        ((∃ f, (v, f) ∈ Migrations.get_pending_migrations files ledger) ∨
            v ∈ Migrations._get_applied_versions ledger)
          ↔ ((∃ f, (v, f) ∈ Migrations._discover_migrations files) ∨
            v ∈ Migrations._get_applied_versions ledger))
    ∧ ((∀ v ∈ Migrations._get_applied_versions ledger,
          ∃ f, (v, f) ∈ Migrations._discover_migrations files) →
        ∀ v : String,
          ((∃ f, (v, f) ∈ Migrations.get_pending_migrations files ledger) ∨
              v ∈ Migrations._get_applied_versions ledger)
            ↔ (∃ f, (v, f) ∈ Migrations._discover_migrations files)) := by
  refine ⟨?_, ?_, ?_⟩
  · intro vf hvf
    exact ((Migrations.mem_get_pending files ledger vf).1 hvf).2
  · intro v
    constructor
    · rintro (⟨f, hf⟩ | hv)
      · exact Or.inl ⟨f, ((Migrations.mem_get_pending files ledger (v, f)).1 hf).1⟩
      · exact Or.inr hv
    · rintro (⟨f, hf⟩ | hv)
      · by_cases hv : v ∈ Migrations._get_applied_versions ledger
        · exact Or.inr hv
        · exact Or.inl ⟨f, (Migrations.mem_get_pending files ledger (v, f)).2 ⟨hf, hv⟩⟩
      · exact Or.inr hv
  · intro hsub v
    constructor
    · rintro (⟨f, hf⟩ | hv)
      · exact ⟨f, ((Migrations.mem_get_pending files ledger (v, f)).1 hf).1⟩
      · exact hsub v hv
    · rintro ⟨f, hf⟩
      by_cases hv : v ∈ Migrations._get_applied_versions ledger
      · exact Or.inr hv
      · exact Or.inl ⟨f, (Migrations.mem_get_pending files ledger (v, f)).2 ⟨hf, hv⟩⟩

/-- C2, witness for the amended theorem: a concrete directory and ledger
where the partition statement (with its inclusion hypothesis discharged)
yields that version "001" is in the union exactly because it is discovered. -/
theorem pending_applied_partition_witness :
    ((∃ f, (("001" : String), f) ∈ Migrations.get_pending_migrations
        ["001_initial_schema.py"] []) ∨
      ("001" : String) ∈ Migrations._get_applied_versions [])
    ↔ (∃ f, (("001" : String), f) ∈
        Migrations._discover_migrations ["001_initial_schema.py"]) := by
  refine (pending_applied_partition ["001_initial_schema.py"] []).2.2 ?_ "001"
  intro v hv
  simp [Migrations._get_applied_versions] at hv

namespace Migrations

/-- A pending migration unit as consumed by `migrate_up`: its version
string, its class name, and the outcome of running its `up` method inside
the step's transaction (`none` = succeeds; `some msg` = raises an exception
whose text is `msg`, in which case the step is rolled back). -/
structure MUnit where
  version : String
  name : String
  upResult : Option String
deriving DecidableEq

/-- The database state visible to the migration runner: the
`schema_migrations` ledger rows (as `(version, name)` pairs, in insertion
order), the versions whose `up` ran and committed during this invocation,
and the accumulated per-version result messages. -/
structure UpState where
  ledger : List (String × String)
  applied : List String
  results : List String
deriving DecidableEq

/-- The `if target_version and version > target_version: break` test of
`migrate_up`, including Python's truthiness of `target_version` (both
`None` and the empty string are falsy and disable the break). -/
def upBreak (target : Option String) (version : String) : Bool :=
  match target with
  | none => false
  | some t => !(t == "") && decide (t < version)

/-- The `for version, filename in pending:` loop of
`MigrationManager.migrate_up`: break once the target is exceeded;
otherwise run the unit's `up`, append its ledger row and commit on
success, or roll back, record the failure message and stop on exception. -/
def migrate_up_loop (target : Option String) : List MUnit → UpState → UpState
  | [], s => s
  | u :: rest, s =>
    if upBreak target u.version then s
    else
      match u.upResult with
      | none =>
          migrate_up_loop target rest
            { ledger := s.ledger ++ [(u.version, u.name)]
              applied := s.applied ++ [u.version]
              results := s.results ++
                ["Applied migration " ++ u.version ++ ": " ++ u.name] }
      | some msg =>
          { s with results := s.results ++
              ["Failed to apply migration " ++ u.version ++ ": " ++ msg] }

/-- Return value of `migrate_up`: the string `"No pending migrations."`
when the pending list is empty, otherwise the result list. -/
inductive UpReturn where
  | noPending (msg : String)
  | results (rs : List String)
deriving DecidableEq

/-- `MigrationManager.migrate_up` over a given ledger and pending list. -/
def migrate_up (ledger : List (String × String)) (pending : List MUnit)
    (target : Option String) : UpReturn × UpState :=
  if pending.isEmpty then
    (UpReturn.noPending "No pending migrations.", ⟨ledger, [], []⟩)
  else
    let s := migrate_up_loop target pending ⟨ledger, [], []⟩
    (UpReturn.results s.results, s)

/-- Success message recorded for an applied unit. -/
def appliedMsg (u : MUnit) : String :=
  "Applied migration " ++ u.version ++ ": " ++ u.name

theorem migrate_up_loop_append (target : Option String) :
    ∀ (pre rest : List MUnit) (s : UpState),
      (∀ u ∈ pre, u.upResult = none) →
      (∀ u ∈ pre, upBreak target u.version = false) →
      migrate_up_loop target (pre ++ rest) s =
        migrate_up_loop target rest
          { ledger := s.ledger ++ pre.map (fun u => (u.version, u.name))
            applied := s.applied ++ pre.map MUnit.version
            results := s.results ++ pre.map appliedMsg } := by
  intro pre
  induction pre with
  | nil => intro rest s _ _; simp
  | cons u pre ih =>
    intro rest s hok hbr
    have hu : u.upResult = none := hok u (by simp)
    have hb : upBreak target u.version = false := hbr u (by simp)
    simp only [List.cons_append, migrate_up_loop, hb, Bool.false_eq_true, if_false, hu]
    simp only [List.append_eq]
    rw [ih rest _ (fun v hv => hok v (by simp [hv])) (fun v hv => hbr v (by simp [hv]))]
    simp [appliedMsg]

end Migrations

/-- C3: if the unit at version V raises during `migrate_up`, no later
pending unit is applied, the ledger gains no row for V (the failing step
is rolled back), every unit applied earlier in the invocation keeps its
ledger row, and the result list is the "Applied migration V: name"
messages for the applied prefix followed by the single
"Failed to apply migration V: reason" message. -/
theorem migrate_up_failure_stops (ledger : List (String × String))
    (pre : List Migrations.MUnit) (f : Migrations.MUnit)
    (post : List Migrations.MUnit) (msg : String)
    (hpre : ∀ u ∈ pre, u.upResult = none)
    (hf : f.upResult = some msg)
    (hled : f.version ∉ ledger.map Prod.fst)
    (hvpre : ∀ u ∈ pre, u.version ≠ f.version)
    (hpost : ∀ u ∈ post, u.version ∉ pre.map Migrations.MUnit.version) :
    (Migrations.migrate_up ledger (pre ++ f :: post) none).2 =
      { ledger := ledger ++ pre.map (fun u => (u.version, u.name))
        applied := pre.map Migrations.MUnit.version
        results := pre.map Migrations.appliedMsg ++
          ["Failed to apply migration " ++ f.version ++ ": " ++ msg] }
    ∧ f.version ∉
        ((Migrations.migrate_up ledger (pre ++ f :: post) none).2.ledger.map Prod.fst)
    ∧ ∀ u ∈ post,
        u.version ∉ (Migrations.migrate_up ledger (pre ++ f :: post) none).2.applied := by
  have hne : (pre ++ f :: post).isEmpty = false := by simp
  have hstate : (Migrations.migrate_up ledger (pre ++ f :: post) none).2 =
      { ledger := ledger ++ pre.map (fun u => (u.version, u.name))
        applied := pre.map Migrations.MUnit.version
        results := pre.map Migrations.appliedMsg ++
          ["Failed to apply migration " ++ f.version ++ ": " ++ msg] } := by
    rw [Migrations.migrate_up]
    simp only [hne, Bool.false_eq_true, if_false]
    rw [Migrations.migrate_up_loop_append none pre (f :: post) _ hpre (fun u _ => rfl)]
    rw [Migrations.migrate_up_loop]
    simp [hf, Migrations.upBreak]
  refine ⟨hstate, ?_, ?_⟩
  · rw [hstate]
    simp only [List.map_append, List.mem_append, List.map_map]
    rintro (h | h)
    · exact hled h
    · rcases List.mem_map.1 h with ⟨u, hu, hv⟩
      exact hvpre u hu (by simpa using hv)
  · intro u hu
    rw [hstate]
    exact hpost u hu

/-- C3, witness: a concrete run with units 001 (succeeds), 002 (raises
"boom") and 003 (never reached); only 001 is applied. -/
theorem migrate_up_failure_stops_witness :
    (Migrations.migrate_up []
        [⟨"001", "InitialSchemaMigration", none⟩,
         ⟨"002", "AnalyticsTablesMigration", some "boom"⟩,
         ⟨"003", "AddQuotesMigration", none⟩] none).2 =
      { ledger := [("001", "InitialSchemaMigration")]
        applied := ["001"]
        results := ["Applied migration 001: InitialSchemaMigration",
          "Failed to apply migration 002: boom"] } := by
  have h := (migrate_up_failure_stops []
      [⟨"001", "InitialSchemaMigration", none⟩]
      ⟨"002", "AnalyticsTablesMigration", some "boom"⟩
      [⟨"003", "AddQuotesMigration", none⟩] "boom"
      (by intro u hu; rcases List.mem_singleton.1 hu with rfl; rfl)
      rfl (by simp)
      (by intro u hu; rcases List.mem_singleton.1 hu with rfl; simp)
      (by intro u hu; rcases List.mem_singleton.1 hu with rfl; simp)).1
  simpa [Migrations.appliedMsg] using h

namespace Migrations

theorem filter_eq_nil_of_forall {α : Type} (p : α → Bool) :
    ∀ l : List α, (∀ a ∈ l, p a = false) → l.filter p = [] := by
  intro l
  induction l with
  | nil => intro _; rfl
  | cons a l ih =>
    intro h
    rw [List.filter_cons, h a (by simp)]
    exact ih (fun b hb => h b (by simp [hb]))

theorem migrate_up_loop_target (t : String) (ht : t ≠ "") :
    ∀ (pending : List MUnit) (s : UpState),
      (∀ u ∈ pending, u.upResult = none) →
      pending.Pairwise (fun a b => a.version ≤ b.version) →
      migrate_up_loop (some t) pending s =
        { ledger := s.ledger ++ ((pending.filter (fun u => decide (u.version ≤ t))).map
            (fun u => (u.version, u.name)))
          applied := s.applied ++ ((pending.filter (fun u => decide (u.version ≤ t))).map
            MUnit.version)
          results := s.results ++ ((pending.filter (fun u => decide (u.version ≤ t))).map
            appliedMsg) } := by
  intro pending
  induction pending with
  | nil => intro s _ _; cases s; simp [migrate_up_loop]
  | cons u rest ih =>
    intro s hok hsorted
    rw [List.pairwise_cons] at hsorted
    by_cases h : t < u.version
    · have hbr : upBreak (some t) u.version = true := by
        simp [upBreak, h, ht]
      have hu : decide (u.version ≤ t) = false := by
        simp [not_le.2 h]
      have hfil : (u :: rest).filter (fun u => decide (u.version ≤ t)) = [] := by
        rw [List.filter_cons, hu]
        simp only [Bool.false_eq_true, if_false]
        refine filter_eq_nil_of_forall _ rest (fun x hx => ?_)
        simp [not_le.2 (lt_of_lt_of_le h (hsorted.1 x hx))]
      rw [migrate_up_loop, if_pos hbr, hfil]
      cases s
      simp
    · have hbr : upBreak (some t) u.version = false := by
        simp [upBreak, h]
      have hu : decide (u.version ≤ t) = true := by
        simp [not_lt.1 h]
      rw [migrate_up_loop, if_neg (by simp [hbr]), hok u (by simp)]
      rw [ih _ (fun v hv => hok v (by simp [hv])) hsorted.2]
      rw [List.filter_cons, hu]
      simp [appliedMsg]

end Migrations

/-- C5 (amended): for every sorted pending list whose units all succeed and
every **non-empty** target version t, `migrate_up` applies exactly the
pending units with version ≤ t, in ascending order, and records exactly
those in the ledger; no unit with version greater than t is applied or
recorded.  (The empty-string target is falsy in Python and behaves like "no
target"; see the counterexample.) -/
theorem migrate_up_target_bound (ledger : List (String × String))
    (pending : List Migrations.MUnit) (t : String) (ht : t ≠ "")
    (hok : ∀ u ∈ pending, u.upResult = none)
    (hsorted : pending.Pairwise (fun a b => a.version ≤ b.version)) :
    (Migrations.migrate_up ledger pending (some t)).2.applied
        = (pending.filter (fun u => decide (u.version ≤ t))).map Migrations.MUnit.version
    ∧ (Migrations.migrate_up ledger pending (some t)).2.ledger
        = ledger ++ (pending.filter (fun u => decide (u.version ≤ t))).map
            (fun u => (u.version, u.name))
    ∧ (Migrations.migrate_up ledger pending (some t)).2.applied.Pairwise (· ≤ ·)
    ∧ (∀ v ∈ (Migrations.migrate_up ledger pending (some t)).2.applied, v ≤ t)
    ∧ (∀ vn ∈ (Migrations.migrate_up ledger pending (some t)).2.ledger,
        vn ∈ ledger ∨ vn.1 ≤ t) := by
  have happ : (Migrations.migrate_up ledger pending (some t)).2.applied
      = (pending.filter (fun u => decide (u.version ≤ t))).map Migrations.MUnit.version := by
    rw [Migrations.migrate_up]
    by_cases hpe : pending.isEmpty
    · rcases List.isEmpty_iff.1 hpe with rfl
      simp
    · simp only [hpe, Bool.false_eq_true, if_false]
      rw [Migrations.migrate_up_loop_target t ht pending _ hok hsorted]
      try simp
  have hled : (Migrations.migrate_up ledger pending (some t)).2.ledger
      = ledger ++ (pending.filter (fun u => decide (u.version ≤ t))).map
          (fun u => (u.version, u.name)) := by
    rw [Migrations.migrate_up]
    by_cases hpe : pending.isEmpty
    · rcases List.isEmpty_iff.1 hpe with rfl
      simp
    · simp only [hpe, Bool.false_eq_true, if_false]
      rw [Migrations.migrate_up_loop_target t ht pending _ hok hsorted]
      try simp
  refine ⟨happ, hled, ?_, ?_, ?_⟩
  · rw [happ, List.pairwise_map]
    exact List.Pairwise.filter _ hsorted
  · intro v hv
    rw [happ] at hv
    rcases List.mem_map.1 hv with ⟨u, hu, rfl⟩
    exact of_decide_eq_true (List.mem_filter.1 hu).2
  · intro vn hvn
    rw [hled] at hvn
    rcases List.mem_append.1 hvn with h | h
    · exact Or.inl h
    · rcases List.mem_map.1 h with ⟨u, hu, rfl⟩
      exact Or.inr (of_decide_eq_true (List.mem_filter.1 hu).2)

/-- C5, counterexample: the claim as stated quantifies over *every* given
target_version, but an empty-string target is falsy in Python, so
`migrate_up(target_version="")` applies a unit with version "001" even
though "001" is greater than "" — contradicting "no unit with version
greater than target_version is applied". -/
theorem migrate_up_empty_target_applies_all :
    (Migrations.migrate_up [] [⟨"001", "InitialSchemaMigration", none⟩]
        (some "")).2.applied = ["001"]
    ∧ ("" : String) < "001" := by
  constructor
  · rfl
  · exact String.lt_iff_toList_lt.2 (by decide)

/-- C5, witness: three sorted successful units with target "002" — exactly
001 and 002 are applied, in order. -/
theorem migrate_up_target_bound_witness :
    (Migrations.migrate_up []
        [⟨"001", "InitialSchemaMigration", none⟩,
         ⟨"002", "AnalyticsTablesMigration", none⟩,
         ⟨"003", "AddQuotesMigration", none⟩] (some "002")).2.applied
      = ["001", "002"] := by
  have h := (migrate_up_target_bound []
      [⟨"001", "InitialSchemaMigration", none⟩,
       ⟨"002", "AnalyticsTablesMigration", none⟩,
       ⟨"003", "AddQuotesMigration", none⟩] "002"
      (by decide)
      (by intro u hu
          rcases List.mem_cons.1 hu with rfl | hu
          · rfl
          rcases List.mem_cons.1 hu with rfl | hu
          · rfl
          rcases List.mem_singleton.1 hu with rfl
          rfl)
      (by refine List.pairwise_cons.2 ⟨?_, List.pairwise_cons.2 ⟨?_, ?_⟩⟩
          · intro b hb
            rcases List.mem_cons.1 hb with rfl | hb
            · exact String.le_iff_toList_le.2 (by decide)
            rcases List.mem_singleton.1 hb with rfl
            exact String.le_iff_toList_le.2 (by decide)
          · intro b hb
            rcases List.mem_singleton.1 hb with rfl
            exact String.le_iff_toList_le.2 (by decide)
          · simp)).1
  have d1 : ("001" : String) ≤ "002" := String.le_iff_toList_le.2 (by decide)
  have d2 : ("002" : String) ≤ "002" := le_refl _
  have d3 : ¬ (("003" : String) ≤ "002") := by
    rw [String.le_iff_toList_le]; decide
  rw [h]
  simp [List.filter_cons, d1, d2, d3]
  decide

namespace Migrations

/-- A row of `get_applied_migrations()` as walked by `migrate_down`
(ordered by `applied_at DESC`), together with the outcome of running the
loaded unit's `down` method (`none` = succeeds; `some msg` = raises, in
which case the step is rolled back before its ledger delete commits). -/
structure ARec where
  version : String
  name : String
  downResult : Option String
deriving DecidableEq

/-- State seen by `migrate_down`: the `schema_migrations` rows (as
`(version, name)` pairs), the versions reverted and committed in this
invocation, and the accumulated result messages. -/
structure DownState where
  ledger : List (String × String)
  reverted : List String
  results : List String
deriving DecidableEq

/-- One successful rollback step of `migrate_down`: run `down`, delete the
version's ledger rows, commit, and record the success message. -/
def revertStep (r : ARec) (s : DownState) : DownState :=
  { ledger := s.ledger.filter (fun vn => vn.1 != r.version)
    reverted := s.reverted ++ [r.version]
    results := s.results ++ ["Rolled back migration " ++ r.version ++ ": " ++ r.name] }

/-- Fold of `revertStep` over a list of records, in order. -/
def revertAll : List ARec → DownState → DownState
  | [], s => s
  | r :: pre, s => revertAll pre (revertStep r s)

/-- The `for migration_info in applied:` loop of
`MigrationManager.migrate_down`: break at the first version ≤ target;
`continue` past a version whose migration file is not discovered; revert,
delete the ledger row and commit on success; roll back, record the failure
message and stop on exception. -/
def migrate_down_loop (target : String) (discovered : List (String × String)) :
    List ARec → DownState → DownState
  | [], s => s
  | r :: rest, s =>
    if r.version ≤ target then s
    else
      match discovered.find? (fun vf => vf.1 == r.version) with
      | none =>
          migrate_down_loop target discovered rest
            { s with results := s.results ++
                ["Migration file not found for version " ++ r.version] }
      | some _ =>
          match r.downResult with
          | none => migrate_down_loop target discovered rest (revertStep r s)
          | some msg =>
              { s with results := s.results ++
                  ["Failed to rollback migration " ++ r.version ++ ": " ++ msg] }

/-- `MigrationManager.migrate_down` over a given ledger, applied list
(in `applied_at DESC` order) and discovered files. -/
def migrate_down (ledger : List (String × String)) (applied : List ARec)
    (discovered : List (String × String)) (target : String) : DownState :=
  migrate_down_loop target discovered applied ⟨ledger, [], []⟩

theorem revertAll_reverted (pre : List ARec) :
    ∀ s : DownState, (revertAll pre s).reverted = s.reverted ++ pre.map ARec.version := by
  induction pre with
  | nil => intro s; simp [revertAll]
  | cons r pre ih =>
    intro s
    rw [revertAll, ih]
    simp [revertStep]

theorem revertAll_results (pre : List ARec) :
    ∀ s : DownState, (revertAll pre s).results = s.results ++ pre.map
      (fun r => "Rolled back migration " ++ r.version ++ ": " ++ r.name) := by
  induction pre with
  | nil => intro s; simp [revertAll]
  | cons r pre ih =>
    intro s
    rw [revertAll, ih]
    simp [revertStep]

theorem revertAll_ledger (pre : List ARec) :
    ∀ (s : DownState) (vn : String × String),
      vn ∈ (revertAll pre s).ledger ↔
        vn ∈ s.ledger ∧ vn.1 ∉ pre.map ARec.version := by
  induction pre with
  | nil => intro s vn; simp [revertAll]
  | cons r pre ih =>
    intro s vn
    rw [revertAll, ih]
    simp only [revertStep, List.mem_filter, bne_iff_ne, ne_eq, List.map_cons,
      List.mem_cons, not_or]
    tauto

theorem migrate_down_loop_append (target : String) (discovered : List (String × String)) :
    ∀ (pre rest : List ARec) (s : DownState),
      (∀ r ∈ pre, target < r.version) →
      (∀ r ∈ pre, r.downResult = none) →
      (∀ r ∈ pre, (discovered.find? (fun vf => vf.1 == r.version)).isSome) →
      migrate_down_loop target discovered (pre ++ rest) s =
        migrate_down_loop target discovered rest (revertAll pre s) := by
  intro pre
  induction pre with
  | nil => intro rest s _ _ _; rfl
  | cons r pre ih =>
    intro rest s hgt hok hfound
    have h1 : ¬ (r.version ≤ target) := not_le.2 (hgt r (by simp))
    rcases Option.isSome_iff_exists.1 (hfound r (by simp)) with ⟨vf, hvf⟩
    rw [List.cons_append, migrate_down_loop, if_neg h1]
    simp only [hvf, hok r (by simp)]
    rw [revertAll]
    exact ih rest _ (fun x hx => hgt x (by simp [hx])) (fun x hx => hok x (by simp [hx]))
      (fun x hx => hfound x (by simp [hx]))

theorem migrate_down_loop_reverted_gt (target : String) (discovered : List (String × String)) :
    ∀ (applied : List ARec) (s : DownState),
      ∀ v ∈ (migrate_down_loop target discovered applied s).reverted,
        v ∈ s.reverted ∨ target < v := by
  intro applied
  induction applied with
  | nil => intro s v hv; exact Or.inl hv
  | cons r rest ih =>
    intro s v hv
    by_cases h : r.version ≤ target
    · rw [migrate_down_loop, if_pos h] at hv
      exact Or.inl hv
    · rw [migrate_down_loop, if_neg h] at hv
      cases hfind : discovered.find? (fun vf => vf.1 == r.version) with
      | none =>
        simp only [hfind] at hv
        have h' := ih _ v hv
        simpa using h'
      | some vf =>
        simp only [hfind] at hv
        cases hdr : r.downResult with
        | none =>
          simp only [hdr] at hv
          rcases ih _ v hv with h' | h'
          · rcases List.mem_append.1 h' with h'' | h''
            · exact Or.inl h''
            · rcases List.mem_singleton.1 h'' with rfl
              exact Or.inr (not_le.1 h)
          · exact Or.inr h'
        | some msg =>
          simp only [hdr] at hv
          exact Or.inl hv

end Migrations

/-- C4: walking the applied list (descending `applied_at` order) with a
prefix of successfully reverted versions above the target followed by a
version whose `revert` raises, `migrate_down` reverts exactly the prefix
(each revert followed by the deletion of that version's ledger rows and a
commit), stops at the failure, leaves the failing version's ledger row
present, and — in general, for every applied list — never reverts a
version less than or equal to the target. -/
theorem migrate_down_walk (ledger : List (String × String))
    (discovered : List (String × String)) (target : String)
    (pre : List Migrations.ARec) (f : Migrations.ARec) (post : List Migrations.ARec)
    (msg fname : String)
    (hpre_gt : ∀ r ∈ pre, target < r.version)
    (hpre_ok : ∀ r ∈ pre, r.downResult = none)
    (hpre_found : ∀ r ∈ pre,
      (discovered.find? (fun vf => vf.1 == r.version)).isSome)
    (hf_gt : target < f.version)
    (hf_found : (discovered.find? (fun vf => vf.1 == f.version)).isSome)
    (hf_fail : f.downResult = some msg)
    (hrow : (f.version, fname) ∈ ledger)
    (hf_notpre : f.version ∉ pre.map Migrations.ARec.version) :
    (Migrations.migrate_down ledger (pre ++ f :: post) discovered target).reverted
        = pre.map Migrations.ARec.version
    ∧ (∀ vn : String × String,
        vn ∈ (Migrations.migrate_down ledger (pre ++ f :: post) discovered target).ledger
          ↔ vn ∈ ledger ∧ vn.1 ∉ pre.map Migrations.ARec.version)
    ∧ (f.version, fname) ∈
        (Migrations.migrate_down ledger (pre ++ f :: post) discovered target).ledger
    ∧ (Migrations.migrate_down ledger (pre ++ f :: post) discovered target).results
        = pre.map (fun r => "Rolled back migration " ++ r.version ++ ": " ++ r.name)
          ++ ["Failed to rollback migration " ++ f.version ++ ": " ++ msg]
    ∧ (∀ applied' : List Migrations.ARec,
        ∀ v ∈ (Migrations.migrate_down ledger applied' discovered target).reverted,
          target < v) := by
  rcases Option.isSome_iff_exists.1 hf_found with ⟨vf, hvf⟩
  have hstate : Migrations.migrate_down ledger (pre ++ f :: post) discovered target =
      { ledger := (Migrations.revertAll pre ⟨ledger, [], []⟩).ledger
        reverted := (Migrations.revertAll pre ⟨ledger, [], []⟩).reverted
        results := (Migrations.revertAll pre ⟨ledger, [], []⟩).results ++
          ["Failed to rollback migration " ++ f.version ++ ": " ++ msg] } := by
    rw [Migrations.migrate_down,
      Migrations.migrate_down_loop_append target discovered pre (f :: post) _
        hpre_gt hpre_ok hpre_found,
      Migrations.migrate_down_loop, if_neg (not_le.2 hf_gt)]
    simp only [hvf, hf_fail]
  refine ⟨?_, ?_, ?_, ?_, ?_⟩
  · rw [hstate]
    have h := Migrations.revertAll_reverted pre ⟨ledger, [], []⟩
    simpa using h
  · intro vn
    rw [hstate]
    have h := Migrations.revertAll_ledger pre ⟨ledger, [], []⟩ vn
    simpa using h
  · rw [hstate]
    have h := Migrations.revertAll_ledger pre ⟨ledger, [], []⟩ (f.version, fname)
    simp only [Migrations.DownState.ledger] at h ⊢
    exact h.2 ⟨hrow, hf_notpre⟩
  · rw [hstate]
    have h := Migrations.revertAll_results pre ⟨ledger, [], []⟩
    simp only [Migrations.DownState.results] at h ⊢
    rw [h]
    simp
  · intro applied' v hv
    rcases Migrations.migrate_down_loop_reverted_gt target discovered applied'
        ⟨ledger, [], []⟩ v hv with h | h
    · simp at h
    · exact h

/-- C4, witness: applied records 003 (revert succeeds), 002 (revert raises
"locked"), 001, with target "001": only 003 is reverted. -/
theorem migrate_down_walk_witness :
    (Migrations.migrate_down
        [("001", "M1"), ("002", "M2"), ("003", "M3")]
        [⟨"003", "M3", none⟩, ⟨"002", "M2", some "locked"⟩, ⟨"001", "M1", none⟩]
        [("001", "001_initial_schema.py"), ("002", "002_analytics_tables.py"),
          ("003", "003_add_quotes.py")]
        "001").reverted = ["003"] := by
  have h := (migrate_down_walk
      [("001", "M1"), ("002", "M2"), ("003", "M3")]
      [("001", "001_initial_schema.py"), ("002", "002_analytics_tables.py"),
        ("003", "003_add_quotes.py")]
      "001"
      [⟨"003", "M3", none⟩] ⟨"002", "M2", some "locked"⟩ [⟨"001", "M1", none⟩]
      "locked" "M2"
      (by intro r hr
          rcases List.mem_singleton.1 hr with rfl
          exact String.lt_iff_toList_lt.2 (by decide))
      (by intro r hr; rcases List.mem_singleton.1 hr with rfl; rfl)
      (by intro r hr; rcases List.mem_singleton.1 hr with rfl; rfl)
      (String.lt_iff_toList_lt.2 (by decide))
      rfl rfl (by simp) (by simp)).1
  simpa using h

namespace Migrations

/-- Python `int(...)` on a decimal numeral, applied to the char list of a
version string (as in `max(int(version) for version, _ in existing)`). -/
def digitsToNat (l : List Char) : Nat :=
  l.foldl (fun n c => n * 10 + (c.toNat - Char.toNat '0')) 0

/-- `int(version)` for a (numeric) version string. -/
def versionToNat (v : String) : Nat := digitsToNat v.data

/-- The f-string `f"{n:03d}"`: decimal rendering, zero-padded to 3 digits. -/
def zeroPad3 (n : Nat) : String :=
  if n < 10 then "00" ++ toString n
  else if n < 100 then "0" ++ toString n
  else toString n

/-- `name.lower().replace(' ', '_').replace('-', '_')` from
`generate_migration`. -/
def safeName (name : String) : String :=
  ⟨(name.data.map Char.toLower).map (fun c => if c = ' ' || c = '-' then '_' else c)⟩

/-- `MigrationManager.generate_migration`: the next version is
`max(int(v)) + 1` over the discovered migrations, zero-padded to 3 digits
("001" when none exist), and the generated filename is
`{next_version}_{safe_name}.py`.  Returns `(next_version, filename)`. -/
def generate_migration (existing : List (String × String)) (name : String) :
    String × String :=
  let next_version :=
    if existing.isEmpty then "001"
    else zeroPad3 (((existing.map (fun vf => versionToNat vf.1)).foldr Nat.max 0) + 1)
  (next_version, next_version ++ "_" ++ safeName name ++ ".py")

/-- The executable body of the generated template's `up` method is the
single statement `pass`: as a database-state transformer it is the
identity. -/
def generated_migration_up {α : Type} (db : α) : α := db

/-- The executable body of the generated template's `down` method is the
single statement `pass`: the identity state transformer. -/
def generated_migration_down {α : Type} (db : α) : α := db

end Migrations

/-- C7: for a non-empty set of existing migration files, `generate_migration`
computes the next version as the numeric maximum of the existing versions
plus one, zero-padded to 3 digits; the filename is the version followed by
the lowercased, underscored name with a `.py` suffix; the generated
skeleton's apply/revert bodies are no-ops; and concretely, generating
"Add Quotes" over existing versions 001 and 002 yields version "003" and
filename "003_add_quotes.py". -/
theorem generate_migration_spec (existing : List (String × String)) (name : String)
    (hne : existing ≠ []) :
    (Migrations.generate_migration existing name).1
        = Migrations.zeroPad3
            (((existing.map (fun vf => Migrations.versionToNat vf.1)).foldr Nat.max 0) + 1)
    ∧ (Migrations.generate_migration existing name).2
        = (Migrations.generate_migration existing name).1 ++ "_"
            ++ Migrations.safeName name ++ ".py"
    ∧ Migrations.generate_migration
        [("001", "001_initial_schema.py"), ("002", "002_analytics_tables.py")]
        "Add Quotes"
        = ("003", "003_add_quotes.py")
    ∧ Migrations.safeName "Add Quotes" = "add_quotes"
    ∧ ∀ (dbState : List String),
        Migrations.generated_migration_up dbState = dbState
        ∧ Migrations.generated_migration_down dbState = dbState := by
  have hemp : existing.isEmpty = false := by
    simpa using hne
  refine ⟨?_, ?_, by decide, by decide, fun dbState => ⟨rfl, rfl⟩⟩
  · rw [Migrations.generate_migration]
    try simp [hemp]
  · rw [Migrations.generate_migration]
    try simp [hemp]

/-- C7, witness: the concrete "Add Quotes" scenario, derived through the
general theorem at a non-empty existing set. -/
theorem generate_migration_spec_witness :
    Migrations.generate_migration
        [("001", "001_initial_schema.py"), ("002", "002_analytics_tables.py")]
        "Add Quotes"
      = ("003", "003_add_quotes.py") :=
  (generate_migration_spec
      [("001", "001_initial_schema.py"), ("002", "002_analytics_tables.py")]
      "Add Quotes" (by simp)).2.2.1

namespace Models

/-- A row of `posts` as touched by `PostModel.feature_post` (ids are the
primary key; `featured` is the stored 0/1 flag). -/
structure FPost where
  id : Nat
  featured : Nat
deriving DecidableEq

/-- `PostModel.feature_post`: `UPDATE posts SET featured = 0` over the
whole table, then `UPDATE posts SET featured = 1 WHERE id = ?`, then
commit. -/
def feature_post (posts : List FPost) (post_id : Nat) : List FPost :=
  (posts.map (fun p => { p with featured := 0 })).map
    (fun p => if p.id = post_id then { p with featured := 1 } else p)

theorem feature_post_eq_map (posts : List FPost) (post_id : Nat) :
    feature_post posts post_id =
      posts.map (fun p =>
        if p.id = post_id then { p with featured := 1 } else { p with featured := 0 }) := by
  rw [feature_post, List.map_map]
  refine List.map_congr_left (fun p _ => ?_)
  by_cases h : p.id = post_id <;> simp [Function.comp, h]

end Models

/-- C9: after `feature_post(post_id)` every post whose id differs from
`post_id` has `featured = 0`; at most one row is featured; and when a row
with that id exists it is featured (hence the unique featured post). -/
theorem feature_post_unique (posts : List Models.FPost) (post_id : Nat)
    (hids : (posts.map Models.FPost.id).Nodup) :
    (∀ q ∈ Models.feature_post posts post_id, q.id ≠ post_id → q.featured = 0)
    ∧ (Models.feature_post posts post_id).countP (fun q => q.featured == 1) ≤ 1
    ∧ ((∃ p ∈ posts, p.id = post_id) →
        ∃ q ∈ Models.feature_post posts post_id, q.id = post_id ∧ q.featured = 1) := by
  refine ⟨?_, ?_, ?_⟩
  · intro q hq hne
    rw [Models.feature_post_eq_map] at hq
    rcases List.mem_map.1 hq with ⟨p, hp, rfl⟩
    by_cases h : p.id = post_id
    · simp [h] at hne ⊢
    · simp [h]
  · rw [Models.feature_post_eq_map, List.countP_map]
    have hcount : ∀ (l : List Models.FPost), (l.map Models.FPost.id).Nodup →
        l.countP ((fun q => q.featured == 1) ∘ (fun p =>
          if p.id = post_id then { p with featured := 1 } else { p with featured := 0 })) ≤ 1 := by
      intro l
      induction l with
      | nil => intro _; simp
      | cons p l ih =>
        intro hnd
        rw [List.map_cons, List.nodup_cons] at hnd
        rw [List.countP_cons]
        by_cases h : p.id = post_id
        · have hzero : l.countP ((fun q => q.featured == 1) ∘ (fun p =>
              if p.id = post_id then { p with featured := 1 } else { p with featured := 0 })) = 0 := by
            rw [List.countP_eq_zero]
            intro r hr
            have : r.id ≠ post_id := by
              intro he
              have hm : r.id ∈ l.map Models.FPost.id :=
                List.mem_map_of_mem Models.FPost.id hr
              rw [he, ← h] at hm
              exact hnd.1 hm
            simp [Function.comp, this]
          rw [hzero]
          simp [Function.comp, h]
        · have : ((fun q => q.featured == 1) ∘ (fun p =>
              if p.id = post_id then { p with featured := 1 } else { p with featured := 0 })) p = false := by
            simp [Function.comp, h]
          rw [this]
          simpa using ih hnd.2
    exact hcount posts hids
  · rintro ⟨p, hp, rfl⟩
    refine ⟨{ p with featured := 1 }, ?_, rfl, rfl⟩
    rw [Models.feature_post_eq_map]
    have := List.mem_map_of_mem (fun p : Models.FPost =>
      if p.id = p.id then { p with featured := 1 } else { p with featured := 0 }) hp
    simpa using List.mem_map_of_mem (fun q : Models.FPost =>
      if q.id = p.id then { q with featured := 1 } else { q with featured := 0 }) hp

/-- C9, witness: featuring post 2 in a three-post table where post 1 was
featured leaves post 2 as the unique featured row. -/
theorem feature_post_unique_witness :
    ∃ q ∈ Models.feature_post [⟨1, 1⟩, ⟨2, 0⟩, ⟨3, 0⟩] 2, q.id = 2 ∧ q.featured = 1 :=
  (feature_post_unique [⟨1, 1⟩, ⟨2, 0⟩, ⟨3, 0⟩] 2 (by decide)).2.2
    ⟨⟨2, 0⟩, by decide, rfl⟩

namespace Models

/-- A row of `posts` as consulted by `PostModel.get_related_posts`. -/
structure Post where
  id : Nat
  category_id : Option Nat
  post_type : String
  status : String
  publish_date : Option Nat
  created_at : Nat
deriving DecidableEq

/-- The tables read by `get_related_posts` (`posts` with unique ids and
`post_tags` rows `(post_id, tag_id)`), plus the query's
`CURRENT_TIMESTAMP`. -/
structure PostsDB where
  posts : List Post
  post_tags : List (Nat × Nat)
  now : Nat

/-- `SELECT category_id, post_type FROM posts WHERE id = ? ... fetchone()`. -/
def lookupPost (db : PostsDB) (post_id : Nat) : Option Post :=
  db.posts.find? (fun p => p.id == post_id)

/-- The scoring subquery
`SELECT COUNT(*) FROM post_tags pt1 JOIN post_tags pt2 ON pt1.tag_id =
pt2.tag_id WHERE pt1.post_id = a AND pt2.post_id = b`: the number of
joined tag pairs shared by posts `a` and `b`. -/
def sharedTagPairs (pts : List (Nat × Nat)) (a b : Nat) : Nat :=
  ((pts.filter (fun r => r.1 == a)).flatMap (fun r =>
    pts.filter (fun s => s.1 == b && s.2 == r.2))).length

/-- `CASE WHEN p.category_id = ? THEN 10 ELSE 0 END` with SQL `NULL`
semantics: a NULL on either side never matches. -/
def categoryMatch (cur p : Post) : Bool :=
  match cur.category_id with
  | some c => p.category_id == some c
  | none => false

/-- The query's `relevance_score` column: 10 for a category match plus
3 per shared tag pair. -/
def relevance_score (db : PostsDB) (cur : Post) (post_id : Nat) (p : Post) : Nat :=
  (if categoryMatch cur p then 10 else 0) + 3 * sharedTagPairs db.post_tags post_id p.id

/-- The query's WHERE clause: exclude the post itself, require published
status, same post type, no scheduled-future publish date, and at least a
category match or a shared tag. -/
def isCandidate (db : PostsDB) (cur : Post) (post_id : Nat) (p : Post) : Bool :=
  p.id != post_id
  && p.status == "published"
  && p.post_type == cur.post_type
  && (match p.publish_date with
      | none => true
      | some d => decide (d ≤ db.now))
  && (categoryMatch cur p
      || (sharedTagPairs db.post_tags post_id p.id != 0 && p.id != post_id))

/-- The sort key of `ORDER BY relevance_score DESC, p.created_at DESC`. -/
def scoreKey (db : PostsDB) (cur : Post) (post_id : Nat) (p : Post) : Nat × Nat :=
  (relevance_score db cur post_id p, p.created_at)

/-- "key `x` sorts no later than key `y`" for a descending lexicographic
order on (score, created_at). -/
def keyLe (x y : Nat × Nat) : Bool :=
  decide (y.1 < x.1) || (x.1 == y.1 && decide (y.2 ≤ x.2))

/-- The comparator realising `ORDER BY relevance_score DESC,
p.created_at DESC`. -/
def rankLe (db : PostsDB) (cur : Post) (post_id : Nat) (a b : Post) : Bool :=
  keyLe (scoreKey db cur post_id a) (scoreKey db cur post_id b)

/-- `PostModel.get_related_posts`: return `[]` when the post id does not
exist; otherwise filter the candidates, order them by score then recency
(both descending) and truncate to `limit`. -/
def get_related_posts (db : PostsDB) (post_id : Nat) (limit : Nat) : List Post :=
  match lookupPost db post_id with
  | none => []
  | some cur =>
      (Sorting.sortBy (rankLe db cur post_id)
        (db.posts.filter (isCandidate db cur post_id))).take limit

theorem keyLe_total : ∀ x y : Nat × Nat, keyLe x y = false → keyLe y x = true := by
  intro x y h
  simp only [keyLe, Bool.or_eq_false_iff, Bool.and_eq_false_iff] at h
  simp only [keyLe, Bool.or_eq_true, Bool.and_eq_true, decide_eq_true_eq, beq_iff_eq]
  rcases h with ⟨h1, h2⟩
  rw [decide_eq_false_iff_not] at h1
  rcases h2 with h2 | h2
  · rw [beq_eq_false_iff_ne] at h2
    omega
  · rw [decide_eq_false_iff_not] at h2
    omega

theorem keyLe_trans : ∀ x y z : Nat × Nat,
    keyLe x y = true → keyLe y z = true → keyLe x z = true := by
  intro x y z hxy hyz
  simp only [keyLe, Bool.or_eq_true, Bool.and_eq_true, decide_eq_true_eq, beq_iff_eq]
    at hxy hyz ⊢
  omega

end Models

/-- C10: when no row of `posts` has the requested id, `get_related_posts`
returns the empty list (the scoring query is never reached). -/
theorem get_related_posts_missing (db : Models.PostsDB) (post_id limit : Nat)
    (h : Models.lookupPost db post_id = none) :
    Models.get_related_posts db post_id limit = [] := by
  rw [Models.get_related_posts, h]

/-- C10, witness: an empty database has no post 1, and the related-posts
query for it returns the empty list. -/
theorem get_related_posts_missing_witness :
    Models.get_related_posts ⟨[], [], 0⟩ 1 4 = [] :=
  get_related_posts_missing ⟨[], [], 0⟩ 1 4 rfl

namespace Models

theorem rankLe_total (db : PostsDB) (cur : Post) (post_id : Nat) :
    ∀ a b, rankLe db cur post_id a b = false → rankLe db cur post_id b a = true :=
  fun _ _ h => keyLe_total _ _ h

theorem rankLe_trans (db : PostsDB) (cur : Post) (post_id : Nat) :
    ∀ a b c, rankLe db cur post_id a b = true → rankLe db cur post_id b c = true →
      rankLe db cur post_id a c = true :=
  fun _ _ _ h1 h2 => keyLe_trans _ _ _ h1 h2

theorem rankLe_iff (db : PostsDB) (cur : Post) (post_id : Nat) (a b : Post) :
    rankLe db cur post_id a b = true ↔
      (relevance_score db cur post_id b < relevance_score db cur post_id a
        ∨ (relevance_score db cur post_id a = relevance_score db cur post_id b
            ∧ b.created_at ≤ a.created_at)) := by
  simp [rankLe, keyLe, scoreKey]

/-- Demo database for the spec's ranking scenario: post 1 is in category 1
with tags 10 and 11; candidate 2 shares the category and tag 10 (score
13); candidate 3 shares both tags but sits in category 2 (score 6) and is
more recent. -/
def relatedDemoDB : PostsDB :=
  { posts :=
      [⟨1, some 1, "post", "published", none, 1⟩,
       ⟨2, some 1, "post", "published", none, 5⟩,
       ⟨3, some 2, "post", "published", none, 9⟩]
    post_tags := [(1, 10), (1, 11), (2, 10), (3, 10), (3, 11)]
    now := 100 }

end Models

/-- C6: every post returned by `get_related_posts` is a post other than the
argument with status 'published' and the same post type; the returned list
is ordered by relevance score (10 per category match plus 3 per shared
tag) descending, then by creation recency descending, and is truncated to
`limit`; in the demo database the candidate sharing the category and one
tag (score 13) is ranked above the candidate sharing two tags but a
different category (score 6) although the latter is more recent. -/
theorem get_related_posts_ranking (db : Models.PostsDB) (post_id limit : Nat)
    (cur : Models.Post) (h : Models.lookupPost db post_id = some cur) :
    (∀ q ∈ Models.get_related_posts db post_id limit,
        q.id ≠ post_id ∧ q.status = "published" ∧ q.post_type = cur.post_type)
    ∧ (Models.get_related_posts db post_id limit).Pairwise (fun a b =>
        Models.relevance_score db cur post_id b < Models.relevance_score db cur post_id a
        ∨ (Models.relevance_score db cur post_id a = Models.relevance_score db cur post_id b
            ∧ b.created_at ≤ a.created_at))
    ∧ (Models.get_related_posts db post_id limit).length ≤ limit
    ∧ Models.get_related_posts Models.relatedDemoDB 1 4
        = [⟨2, some 1, "post", "published", none, 5⟩,
           ⟨3, some 2, "post", "published", none, 9⟩]
    ∧ Models.relevance_score Models.relatedDemoDB
        ⟨1, some 1, "post", "published", none, 1⟩ 1
        ⟨2, some 1, "post", "published", none, 5⟩ = 13
    ∧ Models.relevance_score Models.relatedDemoDB
        ⟨1, some 1, "post", "published", none, 1⟩ 1
        ⟨3, some 2, "post", "published", none, 9⟩ = 6 := by
  have hres : Models.get_related_posts db post_id limit =
      (Sorting.sortBy (Models.rankLe db cur post_id)
        (db.posts.filter (Models.isCandidate db cur post_id))).take limit := by
    rw [Models.get_related_posts, h]
  refine ⟨?_, ?_, ?_, by decide, by decide, by decide⟩
  · intro q hq
    rw [hres] at hq
    have hq2 : q ∈ Sorting.sortBy (Models.rankLe db cur post_id)
        (db.posts.filter (Models.isCandidate db cur post_id)) :=
      List.mem_of_mem_take hq
    have hq3 := ((Sorting.mem_sortBy _ q _).1 hq2)
    have hcand : Models.isCandidate db cur post_id q = true :=
      (List.mem_filter.1 hq3).2
    simp only [Models.isCandidate, Bool.and_eq_true, bne_iff_ne, ne_eq,
      beq_iff_eq] at hcand
    exact ⟨hcand.1.1.1.1, hcand.1.1.1.2, hcand.1.1.2⟩
  · rw [hres]
    have hsorted := Sorting.pairwise_sortBy (Models.rankLe db cur post_id)
      (Models.rankLe_total db cur post_id) (Models.rankLe_trans db cur post_id)
      (db.posts.filter (Models.isCandidate db cur post_id))
    have htake := List.Pairwise.sublist (List.take_sublist limit _) hsorted
    exact htake.imp (fun hab => (Models.rankLe_iff db cur post_id _ _).1 hab)
  · rw [hres]
    exact List.length_take_le limit _

/-- C6, witness: the ranking scenario instantiated — post 1's related list
in the demo database is [post 2 (score 13), post 3 (score 6)]. -/
theorem get_related_posts_ranking_witness :
    Models.get_related_posts Models.relatedDemoDB 1 4
      = [⟨2, some 1, "post", "published", none, 5⟩,
         ⟨3, some 2, "post", "published", none, 9⟩] :=
  (get_related_posts_ranking Models.relatedDemoDB 1 4
    ⟨1, some 1, "post", "published", none, 1⟩ rfl).2.2.2.1

namespace Routes

/-- What the user sees after a valid contact-form POST: the flashed
message and its category, and whether the handler redirected (success
path) or fell through to re-render the form. -/
structure ContactOutcome where
  flash : String
  category : String
  redirected : Bool
deriving DecidableEq

/-- The success flash of the `contact` route. -/
def contactSuccessFlash : String :=
  "Thank you for your message! We'll get back to you soon."

/-- The error flash of the `contact` route. -/
def contactErrorFlash : String :=
  "Sorry, there was an error sending your message. Please try again."

/-- The POST branch of the `contact` route for a validated form
(`routes/main.py`): try to save the message and log it; then, if an email
configuration exists, try to send the notification (an exception is caught,
logged as "Email Notification Failed" and the success flash still shown);
without a configuration, log "Email Config Missing" and show the success
flash; any failure of the save block falls to the outer handler with an
error flash and no redirect.  `saveOk` is whether the save block up to the
config lookup succeeds, `emailConfig` the result of
`EmailConfigModel.get_config()`, `sendOk` whether `send_contact_email`
returns without raising.  Returns the outcome and the activity-log
`action` entries written. -/
def contact_submit (saveOk : Bool) (emailConfig : Option String) (sendOk : Bool) :
    ContactOutcome × List String :=
  if saveOk then
    match emailConfig with
    | some _ =>
        if sendOk then
          (⟨contactSuccessFlash, "success", true⟩,
           ["Contact Message Received", "Email Notification Sent"])
        else
          (⟨contactSuccessFlash, "success", true⟩,
           ["Contact Message Received", "Email Notification Failed"])
    | none =>
        (⟨contactSuccessFlash, "success", true⟩,
         ["Contact Message Received", "Email Config Missing"])
  else
    (⟨contactErrorFlash, "error", false⟩, [])

end Routes

/-- C8: once the contact message is saved, the user-visible outcome is the
same success flash plus redirect whether the notification email succeeds,
raises, or is skipped for lack of configuration; and a raising send is
logged as "Email Notification Failed" instead of failing the operation. -/
theorem contact_email_best_effort :
    ∀ (emailConfig : Option String) (sendOk : Bool),
      (Routes.contact_submit true emailConfig sendOk).1 =
        ⟨Routes.contactSuccessFlash, "success", true⟩
      ∧ (emailConfig.isSome = true ∧ sendOk = false →
          "Email Notification Failed" ∈ (Routes.contact_submit true emailConfig sendOk).2) := by
  intro emailConfig sendOk
  cases emailConfig <;> cases sendOk <;> simp [Routes.contact_submit]

/-- C8, witness: with a configured mail server whose send raises, the user
still gets the success outcome and the failure is logged. -/
theorem contact_email_best_effort_witness :
    "Email Notification Failed" ∈ (Routes.contact_submit true (some "smtp") false).2 :=
  (contact_email_best_effort (some "smtp") false).2 ⟨rfl, rfl⟩

namespace Models

/-- A `page_views` row as inserted by `AnalyticsModel.track_page_view`
(dates and timestamps are day codes here). -/
structure PageView where
  url : String
  page_title : Option String
  user_agent : Option String
  ip_address : Option String
  referrer : Option String
  post_id : Option Nat
  view_date : Nat
deriving DecidableEq

/-- The three analytics tables: the raw `page_views` event log (in insert
order) and the `daily_analytics` / `post_analytics` aggregate rows, keyed
by their unique first component (`date` resp. `post_id`) and carrying
`(total_views, unique_visitors)` resp. `(views_count, unique_views)`. -/
structure AnalyticsState where
  page_views : List PageView
  daily_analytics : List (Nat × Nat × Nat)
  post_analytics : List (Nat × Nat × Nat)
deriving DecidableEq

/-- `SELECT ... WHERE key = ?` on an aggregate table with a unique key. -/
def lookupRow (rows : List (Nat × Nat × Nat)) (k : Nat) : Option (Nat × Nat) :=
  (rows.find? (fun r => r.1 == k)).map Prod.snd

/-- `INSERT OR REPLACE` keyed on the unique first column: any existing row
with the key is deleted and the new row inserted. -/
def upsertRow (rows : List (Nat × Nat × Nat)) (k : Nat) (v : Nat × Nat) :
    List (Nat × Nat × Nat) :=
  (k, v) :: rows.filter (fun r => r.1 != k)

/-- `COUNT(DISTINCT ip_address)`: SQL ignores NULLs, so only rows with a
non-null `ip_address` contribute, each distinct value once. -/
def countDistinctIPs (views : List PageView) : Nat :=
  ((views.filterMap PageView.ip_address).dedup).length

/-- Python truthiness of the `post_id` argument (`if post_id:`): both
`None` and `0` are falsy. -/
def truthyPostId : Option Nat → Bool
  | none => false
  | some pid => pid != 0

/-- `AnalyticsModel.track_page_view`: insert the raw event row, then
`INSERT OR REPLACE` the daily row with
`total_views = COALESCE(previous, 0) + 1` and `unique_visitors`
recomputed as the distinct IP count over `page_views` for that date
(after the insert); when the view carries a (truthy) post id, do the same
for the post row with `views_count = COALESCE(previous, 0) + 1` and
`unique_views` recomputed over `page_views` for that post id. -/
def track_page_view (s : AnalyticsState) (v : PageView) : AnalyticsState :=
  let page_views := s.page_views ++ [v]
  let daily := upsertRow s.daily_analytics v.view_date
    (((lookupRow s.daily_analytics v.view_date).map Prod.fst).getD 0 + 1,
     countDistinctIPs (page_views.filter (fun w => w.view_date == v.view_date)))
  if truthyPostId v.post_id then
    { page_views := page_views
      daily_analytics := daily
      post_analytics := upsertRow s.post_analytics (v.post_id.getD 0)
        (((lookupRow s.post_analytics (v.post_id.getD 0)).map Prod.fst).getD 0 + 1,
         countDistinctIPs (page_views.filter (fun w => w.post_id == v.post_id))) }
  else
    { page_views := page_views
      daily_analytics := daily
      post_analytics := s.post_analytics }

/-- Pure recomputation of the daily aggregate for date `d` from the raw
event log: no row when no event of that date exists, otherwise the event
count and the distinct (non-null) IP count. -/
def dailySpec (pvs : List PageView) (d : Nat) : Option (Nat × Nat) :=
  let rows := pvs.filter (fun w => w.view_date == d)
  if rows.isEmpty then none
  else some (rows.length, countDistinctIPs rows)

/-- Pure recomputation of the per-post aggregate for post `pid` from the
raw event log. -/
def postSpec (pvs : List PageView) (pid : Nat) : Option (Nat × Nat) :=
  let rows := pvs.filter (fun w => w.post_id == some pid)
  if rows.isEmpty then none
  else some (rows.length, countDistinctIPs rows)

/-- Fresh analytics tables. -/
def initAnalytics : AnalyticsState := ⟨[], [], []⟩

/-- Record a sequence of page views through `track_page_view`, starting
from fresh tables. -/
def applyViews (vs : List PageView) : AnalyticsState :=
  vs.foldl track_page_view initAnalytics

theorem lookupRow_upsert_self (rows : List (Nat × Nat × Nat)) (k : Nat) (v : Nat × Nat) :
    lookupRow (upsertRow rows k v) k = some v := by
  simp [lookupRow, upsertRow]

theorem find?_filter_ne (k k' : Nat) (h : k' ≠ k) :
    ∀ rows : List (Nat × Nat × Nat),
      (rows.filter (fun r => r.1 != k)).find? (fun r => r.1 == k') =
        rows.find? (fun r => r.1 == k') := by
  intro rows
  induction rows with
  | nil => rfl
  | cons r rows ih =>
    by_cases hk : r.1 = k
    · have h1 : (r.1 != k) = false := by simp [hk]
      have h2 : (r.1 == k') = false := by simp [hk, Ne.symm h]
      rw [List.filter_cons, h1]
      simp only [Bool.false_eq_true, if_false]
      rw [List.find?_cons, h2]
      exact ih
    · have h1 : (r.1 != k) = true := by simp [hk]
      rw [List.filter_cons, h1]
      simp only [if_true]
      rw [List.find?_cons, List.find?_cons]
      cases hk' : (r.1 == k')
      · exact ih
      · rfl

theorem lookupRow_upsert_other (rows : List (Nat × Nat × Nat)) (k k' : Nat)
    (v : Nat × Nat) (h : k' ≠ k) :
    lookupRow (upsertRow rows k v) k' = lookupRow rows k' := by
  rw [lookupRow, upsertRow, List.find?_cons]
  have hk : ((k, v).1 == k') = false := by simp [Ne.symm h]
  rw [hk]
  rw [find?_filter_ne k k' h rows]
  rfl

end Models

namespace Models

theorem track_page_views_eq (s : AnalyticsState) (v : PageView) :
    (track_page_view s v).page_views = s.page_views ++ [v] := by
  rw [track_page_view]
  by_cases ht : truthyPostId v.post_id = true <;> simp [ht]

theorem track_daily_eq (s : AnalyticsState) (v : PageView) :
    (track_page_view s v).daily_analytics =
      upsertRow s.daily_analytics v.view_date
        (((lookupRow s.daily_analytics v.view_date).map Prod.fst).getD 0 + 1,
         countDistinctIPs ((s.page_views ++ [v]).filter
           (fun w => w.view_date == v.view_date))) := by
  rw [track_page_view]
  by_cases ht : truthyPostId v.post_id = true <;> simp [ht]

theorem track_post_eq_of_truthy (s : AnalyticsState) (v : PageView)
    (ht : truthyPostId v.post_id = true) :
    (track_page_view s v).post_analytics =
      upsertRow s.post_analytics (v.post_id.getD 0)
        (((lookupRow s.post_analytics (v.post_id.getD 0)).map Prod.fst).getD 0 + 1,
         countDistinctIPs ((s.page_views ++ [v]).filter
           (fun w => w.post_id == v.post_id))) := by
  rw [track_page_view]
  simp [ht]

theorem track_post_eq_of_falsy (s : AnalyticsState) (v : PageView)
    (ht : truthyPostId v.post_id = false) :
    (track_page_view s v).post_analytics = s.post_analytics := by
  rw [track_page_view]
  simp [ht]

theorem daily_step (s : AnalyticsState) (v : PageView)
    (hd : ∀ d, lookupRow s.daily_analytics d = dailySpec s.page_views d) :
    ∀ d, lookupRow (track_page_view s v).daily_analytics d
      = dailySpec (s.page_views ++ [v]) d := by
  intro d
  rw [track_daily_eq]
  by_cases hdv : d = v.view_date
  · subst hdv
    rw [lookupRow_upsert_self, hd v.view_date]
    have hfil : (s.page_views ++ [v]).filter (fun w => w.view_date == v.view_date)
        = s.page_views.filter (fun w => w.view_date == v.view_date) ++ [v] := by
      rw [List.filter_append]
      simp
    simp only [dailySpec, hfil]
    by_cases hemp : (s.page_views.filter (fun w => w.view_date == v.view_date)).isEmpty
    · rcases List.isEmpty_iff.1 hemp with he
      simp [he]
    · simp [hemp]
  · rw [lookupRow_upsert_other _ _ _ _ hdv, hd d]
    have hfil : (s.page_views ++ [v]).filter (fun w => w.view_date == d)
        = s.page_views.filter (fun w => w.view_date == d) := by
      rw [List.filter_append]
      have : (v.view_date == d) = false := by
        simp
        exact fun he => hdv he.symm
      simp [this]
    simp only [dailySpec, hfil]

theorem post_step (s : AnalyticsState) (v : PageView)
    (hp : ∀ pid, pid ≠ 0 → lookupRow s.post_analytics pid = postSpec s.page_views pid) :
    ∀ pid, pid ≠ 0 → lookupRow (track_page_view s v).post_analytics pid
      = postSpec (s.page_views ++ [v]) pid := by
  intro pid hpid
  by_cases ht : truthyPostId v.post_id = true
  · rcases hv : v.post_id with _ | pid0
    · rw [hv] at ht
      simp [truthyPostId] at ht
    · have hpid0 : pid0 ≠ 0 := by
        rw [hv] at ht
        simpa [truthyPostId] using ht
      rw [track_post_eq_of_truthy s v ht, hv]
      by_cases he : pid = pid0
      · subst he
        simp only [Option.getD_some]
        rw [lookupRow_upsert_self, hp pid hpid]
        have hfil : (s.page_views ++ [v]).filter (fun w => w.post_id == some pid)
            = s.page_views.filter (fun w => w.post_id == some pid) ++ [v] := by
          rw [List.filter_append]
          simp [hv]
        simp only [postSpec, hfil]
        by_cases hemp : (s.page_views.filter (fun w => w.post_id == some pid)).isEmpty
        · rcases List.isEmpty_iff.1 hemp with he'
          simp [he']
        · simp [hemp]
      · simp only [Option.getD_some]
        rw [lookupRow_upsert_other _ _ _ _ he, hp pid hpid]
        have hfil : (s.page_views ++ [v]).filter (fun w => w.post_id == some pid)
            = s.page_views.filter (fun w => w.post_id == some pid) := by
          rw [List.filter_append]
          have : (v.post_id == some pid) = false := by
            rw [hv]
            simp
            exact fun h' => he h'.symm
          simp [this]
        simp only [postSpec, hfil]
  · rw [track_post_eq_of_falsy s v (by simpa using ht), hp pid hpid]
    have hvfalse : (v.post_id == some pid) = false := by
      rcases hv : v.post_id with _ | pid0
      · rfl
      · rw [hv] at ht
        simp [truthyPostId] at ht
        simp [ht]
        exact fun h' => hpid h'.symm
    have hfil : (s.page_views ++ [v]).filter (fun w => w.post_id == some pid)
        = s.page_views.filter (fun w => w.post_id == some pid) := by
      rw [List.filter_append]
      simp [hvfalse]
    simp only [postSpec, hfil]

end Models

/-- C1: for every sequence of page views recorded through
`track_page_view` (starting from fresh analytics tables), after each call
the raw log equals the recorded sequence, every `daily_analytics` row
equals the pure recomputation from the log for its date (`total_views` =
row count for the date, `unique_visitors` = distinct non-null IP count),
and every `post_analytics` row for a (truthy) post id equals the pure
recomputation for that post (`views_count` = row count, `unique_views` =
distinct non-null IP count); so the aggregates never drift from the event
log over any such sequence. -/
theorem track_page_view_aggregates (vs : List Models.PageView) :
    (Models.applyViews vs).page_views = vs
    ∧ (∀ d, Models.lookupRow (Models.applyViews vs).daily_analytics d
        = Models.dailySpec vs d)
    ∧ (∀ pid, pid ≠ 0 →
        Models.lookupRow (Models.applyViews vs).post_analytics pid
          = Models.postSpec vs pid) := by
  induction vs using List.reverseRecOn with
  | nil => exact ⟨rfl, fun d => rfl, fun pid _ => rfl⟩
  | append_singleton vs v ih =>
    rcases ih with ⟨h1, h2, h3⟩
    have happ : Models.applyViews (vs ++ [v])
        = Models.track_page_view (Models.applyViews vs) v := by
      rw [Models.applyViews, Models.applyViews, List.foldl_append]
      rfl
    have hd : ∀ d, Models.lookupRow (Models.applyViews vs).daily_analytics d
        = Models.dailySpec (Models.applyViews vs).page_views d := by
      intro d
      rw [h1]
      exact h2 d
    have hp : ∀ pid, pid ≠ 0 →
        Models.lookupRow (Models.applyViews vs).post_analytics pid
          = Models.postSpec (Models.applyViews vs).page_views pid := by
      intro pid hpid
      rw [h1]
      exact h3 pid hpid
    refine ⟨?_, ?_, ?_⟩
    · rw [happ, Models.track_page_views_eq, h1]
    · intro d
      rw [happ]
      have hstep := Models.daily_step (Models.applyViews vs) v hd d
      rw [hstep, h1]
    · intro pid hpid
      rw [happ]
      have hstep := Models.post_step (Models.applyViews vs) v hp pid hpid
      rw [hstep, h1]

/-- C1, witness: three views of post 7 on the same day from two distinct
IPs yield a `post_analytics` row with `views_count = 3` and
`unique_views = 2`, matching the recomputation from the log. -/
theorem track_page_view_aggregates_witness :
    Models.lookupRow (Models.applyViews
        [⟨"/post/7", none, none, some "1.1.1.1", none, some 7, 20⟩,
         ⟨"/post/7", none, none, some "1.1.1.1", none, some 7, 20⟩,
         ⟨"/post/7", none, none, some "2.2.2.2", none, some 7, 20⟩]).post_analytics 7
      = some (3, 2) := by
  have h := (track_page_view_aggregates
      [⟨"/post/7", none, none, some "1.1.1.1", none, some 7, 20⟩,
       ⟨"/post/7", none, none, some "1.1.1.1", none, some 7, 20⟩,
       ⟨"/post/7", none, none, some "2.2.2.2", none, some 7, 20⟩]).2.2 7 (by decide)
  rw [h]
  decide
